import Mathlib

/-!
Shallow embedding of the tiling engine of `src/utils.py`
(`patch_dims`, `create_patches`, `assemble_patches`) together with
theorems about the tiling, reassembly and index-mapping behaviour.

Modelling conventions:
* numpy arrays are modelled as a shape (a list of dimension sizes)
  together with a total function from multi-indices to element values;
  cells outside the shape are never consulted by the theorems.
* element values are modelled as integers: the float32 values the
  program stores are only ever copied, never combined arithmetically,
  and the uint8 output cells are integers mod 256.
* the float division inside `np.ceil(np.array(mat_size) / patch_size)`
  is modelled exactly over ℚ (exact for the integer extents in play).
* the in-place loops of the program are modelled by folding the
  per-iteration write over the iteration list, with explicit state.
-/

namespace DIM

/-- A numpy style n-dimensional array: a shape and the element stored at
each multi-index. -/
structure NDArray where
  shape : List Nat
  data : List Nat → Int

/-- `patch_dims(mat_size, patch_size)` (src/utils.py lines 111-112):
`np.ceil(np.array(mat_size) / patch_size).astype(int)`, the elementwise
ceiling of the extent divided by the patch size.  No validation of
`patch_size` is performed by the source. -/
def patch_dims (mat_size : Int × Int) (patch_size : Int) : Int × Int :=
  (⌈(mat_size.1 : ℚ) / (patch_size : ℚ)⌉, ⌈(mat_size.2 : ℚ) / (patch_size : ℚ)⌉)

/-- The linear index at which the tiler stores the patch of grid cell
`(y, x)`: `patch_id = y + x * patches_dim[0]` (src/utils.py line 133). -/
def tiler_patch_id (rows y x : Nat) : Nat :=
  y + x * rows

/-- The grid cell into which the assembler writes the patch of linear
index `i`: `(i % patch_dim_h, i // patch_dim_h)` (src/utils.py
lines 144-145). -/
def assembler_cell (rows i : Nat) : Nat × Nat :=
  (i % rows, i / rows)

/-- The patch sequence produced by the tiler: `count` buffers, each of
shape `(psize, psize, 4)`, addressed as `data patch_id i j ch`. -/
structure Patches where
  count : Nat
  psize : Nat
  data : Nat → Nat → Nat → Nat → Int

/-- One iteration of the tiling loop (src/utils.py lines 123-134): for
grid cell `(y, x)` extract `mat[y*P : y*P+P, x*P : x*P+P, :]` — numpy
clips the slice at the source extent, giving the real patch sizes
`min P (h - y*P)` and `min P (w - x*P)` — and write it into the
top-left corner of the patch at `tiler_patch_id`; every other cell of
the state keeps its value. -/
def tile_write (mat : NDArray) (P rows h w : Nat)
    (acc : Nat → Nat → Nat → Nat → Int) (yx : Nat × Nat) :
    Nat → Nat → Nat → Nat → Int :=
  fun p i j ch =>
    if p = tiler_patch_id rows yx.1 yx.2 ∧ i < min P (h - yx.1 * P) ∧
        j < min P (w - yx.2 * P) ∧ ch < 4 then
      mat.data [yx.1 * P + i, yx.2 * P + j, ch]
    else
      acc p i j ch

/-- The iteration order of the two nested tiling loops: for each `y` in
`range rows`, for each `x` in `range cols` (src/utils.py lines 123-125). -/
def grid_cells (rows cols : Nat) : List (Nat × Nat) :=
  (List.range rows).flatMap fun y => (List.range cols).map fun x => (y, x)

/-- The message of the two shape assertions of `create_patches`
(src/utils.py lines 116-117). -/
def shapeErrMsg : String := "Input mat need to have 4 channels (R, G, B, trimap)"

/-- `create_patches(mat, patch_size)` (src/utils.py lines 114-136):
assert the input is 3-dimensional with last dimension 4, derive the
grid from the first two axes via `patch_dims`, allocate
`rows*cols` zero patches of shape `(P, P, 4)` and fill each from the
(possibly clipped) source sub-region. -/
def create_patches (mat : NDArray) (patch_size : Nat) : Except String Patches :=
  match mat.shape with
  | [h, w, c] =>
    if c = 4 then
      let rows := ((patch_dims ((h : Int), (w : Int)) (patch_size : Int)).1).toNat
      let cols := ((patch_dims ((h : Int), (w : Int)) (patch_size : Int)).2).toNat
      .ok { count := rows * cols
            psize := patch_size
            data := (grid_cells rows cols).foldl
              (tile_write mat patch_size rows h w) fun _ _ _ _ => 0 }
    else .error shapeErrMsg
  | _ => .error shapeErrMsg

/-- The ordered sequence of per-patch prediction planes handed to the
assembler: `count` buffers, each addressed as `data i a b`. -/
structure PredPatches where
  count : Nat
  data : Nat → Nat → Nat → Int

/-- The numpy cast of an integer value into a `uint8` cell: wrap
modulo 256. -/
def toUInt8 (v : Int) : Nat :=
  (v % 256).toNat

/-- Cell `(r, c)` of the output lies inside the block that assembly
iteration `i` writes, i.e. inside
`result[y:y+P, x:x+P]` for `(y, x) = assembler_cell rows i * P`. -/
def inBlock (P rows i r c : Nat) : Prop :=
  (assembler_cell rows i).1 * P ≤ r ∧ r < (assembler_cell rows i).1 * P + P ∧
  (assembler_cell rows i).2 * P ≤ c ∧ c < (assembler_cell rows i).2 * P + P

instance (P rows i r c : Nat) : Decidable (inBlock P rows i r c) := by
  unfold inBlock; infer_instance

/-- One iteration of the assembly loop (src/utils.py lines 143-147):
write `pred_patches[i]` (cast to uint8) into
`result[y:y+P, x:x+P]`.  numpy clips the slice at the output extent, so
if the clipped slice is smaller than `(P, P)` the assignment fails to
broadcast and the call aborts. -/
def assemble_write (pred : PredPatches) (P rows cols : Nat)
    (acc : Nat → Nat → Nat) (i : Nat) : Except String (Nat → Nat → Nat) :=
  let y := (assembler_cell rows i).1 * P
  let x := (assembler_cell rows i).2 * P
  if y + P ≤ P * rows ∧ x + P ≤ P * cols then
    .ok fun r c =>
      if inBlock P rows i r c then toUInt8 (pred.data i (r - y) (c - x))
      else acc r c
  else
    .error "could not broadcast input array into the clipped output slice"

/-- The assembly loop over the linear indices, with early exit on a
failed write. -/
def assemble_loop (pred : PredPatches) (P rows cols : Nat) :
    (Nat → Nat → Nat) → List Nat → Except String (Nat → Nat → Nat)
  | acc, [] => .ok acc
  | acc, i :: rest =>
    match assemble_write pred P rows cols acc i with
    | .ok acc2 => assemble_loop pred P rows cols acc2 rest
    | .error e => .error e

/-- The 2D uint8 output buffer of the assembler. -/
structure AssembledMat where
  height : Nat
  width : Nat
  data : Nat → Nat → Nat

/-- `assemble_patches(pred_patches, mat_size, patch_size)`
(src/utils.py lines 138-149): derive the grid from `mat_size` via
`patch_dims`, allocate a zero uint8 buffer of shape
`(P*rows, P*cols)` and write patch `i` at the block of grid cell
`assembler_cell rows i`, for every `i < pred_patches.count`. -/
def assemble_patches (pred : PredPatches) (mat_size : Int × Int)
    (patch_size : Nat) : Except String AssembledMat :=
  let rows := ((patch_dims mat_size (patch_size : Int)).1).toNat
  let cols := ((patch_dims mat_size (patch_size : Int)).2).toNat
  (assemble_loop pred patch_size rows cols (fun _ _ => 0)
      (List.range pred.count)).map
    fun f => { height := patch_size * rows, width := patch_size * cols, data := f }

/-! ### Arithmetic bridge: the rational ceiling against natural division -/

/-- The rational ceiling of `a / b` agrees with the natural-number
ceiling-division formula `(a + b - 1) / b` for a positive divisor. -/
lemma ceil_natCast_div (a b : ℕ) (hb : 0 < b) :
    ⌈(a : ℚ) / (b : ℚ)⌉ = ((a + b - 1) / b : ℕ) := by
  have hb0 : (0 : ℚ) < (b : ℚ) := by exact_mod_cast hb
  have hmod := Nat.div_add_mod (a + b - 1) b
  have hlt : (a + b - 1) % b < b := Nat.mod_lt _ hb
  rw [Int.ceil_eq_iff]
  have h1 : b * ((a + b - 1) / b) + (a + b - 1) % b + 1 = a + b := by omega
  have h1q : (b : ℚ) * (((a + b - 1) / b : ℕ) : ℚ) + (((a + b - 1) % b : ℕ) : ℚ) + 1
      = (a : ℚ) + (b : ℚ) := by exact_mod_cast h1
  have h2 : (0 : ℚ) ≤ (((a + b - 1) % b : ℕ) : ℚ) := by positivity
  have h3 : (((a + b - 1) % b : ℕ) : ℚ) + 1 ≤ (b : ℚ) := by exact_mod_cast hlt
  rw [Int.cast_natCast]
  constructor
  · rw [lt_div_iff₀ hb0]
    nlinarith [h1q, h2]
  · rw [div_le_iff₀ hb0]
    nlinarith [h1q, h3]

/-- `patch_dims` on a natural extent and a positive natural patch size
is the pair of natural ceiling divisions. -/
lemma patch_dims_nat (h w P : ℕ) (hP : 0 < P) :
    patch_dims ((h : Int), (w : Int)) (P : Int) =
      ((((h + P - 1) / P : ℕ) : Int), (((w + P - 1) / P : ℕ) : Int)) := by
  unfold patch_dims
  rw [Prod.mk.injEq]
  constructor
  · rw [show (((h : Int) , (w : Int)).1 : ℚ) = (h : ℚ) by push_cast; rfl]
    rw [show (((P : ℕ) : Int) : ℚ) = (P : ℚ) by push_cast; rfl]
    exact ceil_natCast_div h P hP
  · rw [show (((h : Int) , (w : Int)).2 : ℚ) = (w : ℚ) by push_cast; rfl]
    rw [show (((P : ℕ) : Int) : ℚ) = (P : ℚ) by push_cast; rfl]
    exact ceil_natCast_div w P hP

/-- The first grid dimension, as a natural number. -/
lemma patch_dims_fst_toNat (h w P : ℕ) (hP : 0 < P) :
    ((patch_dims ((h : Int), (w : Int)) (P : Int)).1).toNat = (h + P - 1) / P := by
  rw [patch_dims_nat h w P hP]
  exact Int.toNat_natCast _

/-- The second grid dimension, as a natural number. -/
lemma patch_dims_snd_toNat (h w P : ℕ) (hP : 0 < P) :
    ((patch_dims ((h : Int), (w : Int)) (P : Int)).2).toNat = (w + P - 1) / P := by
  rw [patch_dims_nat h w P hP]
  exact Int.toNat_natCast _

/-- Bounds of the natural ceiling division: the grid covers the extent
and exceeds it by less than one patch. -/
lemma ceilDiv_bounds (a b : ℕ) (hb : 0 < b) :
    a ≤ b * ((a + b - 1) / b) ∧ b * ((a + b - 1) / b) < a + b := by
  have hmod := Nat.div_add_mod (a + b - 1) b
  have hlt : (a + b - 1) % b < b := Nat.mod_lt _ hb
  omega

/-- When the divisor divides the extent, the ceiling division is exact
division. -/
lemma ceilDiv_of_dvd (a b : ℕ) (hb : 0 < b) (hd : b ∣ a) :
    (a + b - 1) / b = a / b := by
  obtain ⟨k, rfl⟩ := hd
  have h1 : b * k + b - 1 = b * k + (b - 1) := by omega
  rw [h1, Nat.mul_add_div hb, Nat.div_eq_of_lt (by omega), Nat.mul_div_cancel_left k hb]
  rfl

/-! ### Index-mapping arithmetic -/

/-- Decomposing a tiler patch id recovers the grid cell. -/
lemma pid_mod_div (rows y x : ℕ) (hy : y < rows) :
    (y + x * rows) % rows = y ∧ (y + x * rows) / rows = x := by
  have hr : 0 < rows := lt_of_le_of_lt (Nat.zero_le y) hy
  constructor
  · rw [Nat.add_mul_mod_self_right, Nat.mod_eq_of_lt hy]
  · rw [Nat.add_mul_div_right _ _ hr, Nat.div_eq_of_lt hy, Nat.zero_add]

/-- A tiler patch id of a valid grid cell is a valid linear index. -/
lemma tiler_patch_id_lt (rows cols y x : ℕ) (hy : y < rows) (hx : x < cols) :
    tiler_patch_id rows y x < rows * cols := by
  unfold tiler_patch_id
  calc y + x * rows < rows + x * rows := by omega
    _ = (x + 1) * rows := by ring
    _ ≤ cols * rows := Nat.mul_le_mul_right rows hx
    _ = rows * cols := Nat.mul_comm _ _

/-- Patch ids of distinct valid grid cells are distinct. -/
lemma tiler_patch_id_inj (rows y x y2 x2 : ℕ) (hy : y < rows) (hy2 : y2 < rows)
    (he : tiler_patch_id rows y x = tiler_patch_id rows y2 x2) : y = y2 ∧ x = x2 := by
  unfold tiler_patch_id at he
  have h1 := pid_mod_div rows y x hy
  have h2 := pid_mod_div rows y2 x2 hy2
  constructor
  · rw [← h1.1, ← h2.1, he]
  · rw [← h1.2, ← h2.2, he]

/-- A valid linear index decomposes into a valid grid cell. -/
lemma cell_lt (rows cols i : ℕ) (hi : i < rows * cols) :
    i % rows < rows ∧ i / rows < cols := by
  rcases Nat.eq_zero_or_pos rows with hr | hr
  · subst hr; simp at hi
  · exact ⟨Nat.mod_lt _ hr, (Nat.div_lt_iff_lt_mul hr).mpr (by rwa [Nat.mul_comm cols rows])⟩

/-- Recomposing the assembler grid cell gives back the linear index. -/
lemma pid_recompose (rows i : ℕ) :
    tiler_patch_id rows (i % rows) (i / rows) = i := by
  unfold tiler_patch_id
  rw [Nat.mul_comm, Nat.mod_add_div]

/-! ### Characterization of the tiling loop -/

/-- Membership in the nested iteration order of the tiling loops. -/
lemma mem_grid_cells (rows cols y x : ℕ) :
    (y, x) ∈ grid_cells rows cols ↔ y < rows ∧ x < cols := by
  simp [grid_cells]

/-- A tile write leaves every other patch id unchanged. -/
lemma tile_write_ne (mat : NDArray) (P rows h w : ℕ)
    (acc : ℕ → ℕ → ℕ → ℕ → Int) (yx : ℕ × ℕ) (p i j ch : ℕ)
    (hne : p ≠ tiler_patch_id rows yx.1 yx.2) :
    tile_write mat P rows h w acc yx p i j ch = acc p i j ch := by
  unfold tile_write
  rw [if_neg]
  intro hcon
  exact hne hcon.1

/-- A tile write at its own patch id copies the clipped sub-region and
keeps the rest of the buffer. -/
lemma tile_write_self (mat : NDArray) (P rows h w : ℕ)
    (acc : ℕ → ℕ → ℕ → ℕ → Int) (y x i j ch : ℕ) :
    tile_write mat P rows h w acc (y, x) (tiler_patch_id rows y x) i j ch =
      if i < min P (h - y * P) ∧ j < min P (w - x * P) ∧ ch < 4 then
        mat.data [y * P + i, x * P + j, ch]
      else acc (tiler_patch_id rows y x) i j ch := by
  unfold tile_write
  by_cases hC : i < min P (h - y * P) ∧ j < min P (w - x * P) ∧ ch < 4
  · rw [if_pos ⟨rfl, hC⟩, if_pos hC]
  · rw [if_neg (fun hcon => hC hcon.2), if_neg hC]

/-- Folding tile writes over a list that never touches patch id `p`
leaves patch `p` unchanged. -/
lemma foldl_tile_write_not_mem (mat : NDArray) (P rows h w : ℕ)
    (L : List (ℕ × ℕ)) (p i j ch : ℕ)
    (hL : ∀ yx ∈ L, p ≠ tiler_patch_id rows yx.1 yx.2) :
    ∀ acc, (L.foldl (tile_write mat P rows h w) acc) p i j ch = acc p i j ch := by
  induction L with
  | nil => intro acc; rfl
  | cons a t ih =>
    intro acc
    rw [List.foldl_cons]
    rw [ih (fun yx hyx => hL yx (List.mem_cons_of_mem a hyx))]
    exact tile_write_ne mat P rows h w acc a p i j ch (hL a (List.mem_cons_self a t))

/-- Folding tile writes over a list containing the cell `(y0, x0)` —
and no other cell with the same patch id — stores the clipped source
sub-region of `(y0, x0)` at that patch id. -/
lemma foldl_tile_write_mem (mat : NDArray) (P rows h w : ℕ)
    (L : List (ℕ × ℕ)) (y0 x0 : ℕ) (hmem : (y0, x0) ∈ L)
    (hu : ∀ yx ∈ L, tiler_patch_id rows yx.1 yx.2 = tiler_patch_id rows y0 x0 →
      yx = (y0, x0)) (i j ch : ℕ) :
    ∀ acc, (L.foldl (tile_write mat P rows h w) acc) (tiler_patch_id rows y0 x0) i j ch =
      if i < min P (h - y0 * P) ∧ j < min P (w - x0 * P) ∧ ch < 4 then
        mat.data [y0 * P + i, x0 * P + j, ch]
      else acc (tiler_patch_id rows y0 x0) i j ch := by
  induction L with
  | nil => exact absurd hmem (List.not_mem_nil _)
  | cons a t ih =>
    intro acc
    rw [List.foldl_cons]
    by_cases hat : (y0, x0) ∈ t
    · rw [ih hat (fun yx hyx => hu yx (List.mem_cons_of_mem a hyx))]
      by_cases ha : a = (y0, x0)
      · subst ha
        rw [tile_write_self]
        split
        · rfl
        · rfl
      · have hne : tiler_patch_id rows y0 x0 ≠ tiler_patch_id rows a.1 a.2 := by
          intro he
          exact ha (hu a (List.mem_cons_self a t) he.symm)
        rw [tile_write_ne mat P rows h w acc a _ i j ch hne]
    · have ha : a = (y0, x0) := by
        rcases List.mem_cons.mp hmem with h1 | h1
        · exact h1.symm
        · exact absurd h1 hat
      subst ha
      rw [foldl_tile_write_not_mem mat P rows h w t _ i j ch
        (fun yx hyx he => hat ((hu yx (List.mem_cons_of_mem _ hyx) he.symm) ▸ hyx))]
      exact tile_write_self mat P rows h w acc y0 x0 i j ch

/-- Full characterization of `create_patches` on a well-shaped input:
it succeeds, produces `rows*cols` patches of size `P`, and the patch of
grid cell `(y, x)` holds the clipped source sub-region in its top-left
corner and zero elsewhere. -/
lemma create_patches_spec (mat : NDArray) (H W P : ℕ)
    (hshape : mat.shape = [H, W, 4]) (hP : 0 < P) :
    ∃ pat : Patches, create_patches mat P = .ok pat ∧
      pat.count = ((H + P - 1) / P) * ((W + P - 1) / P) ∧
      pat.psize = P ∧
      ∀ y x i j ch, y < (H + P - 1) / P → x < (W + P - 1) / P →
        pat.data (tiler_patch_id ((H + P - 1) / P) y x) i j ch =
          if i < min P (H - y * P) ∧ j < min P (W - x * P) ∧ ch < 4 then
            mat.data [y * P + i, x * P + j, ch]
          else 0 := by
  refine ⟨{ count := ((H + P - 1) / P) * ((W + P - 1) / P), psize := P,
            data := (grid_cells ((H + P - 1) / P) ((W + P - 1) / P)).foldl
              (tile_write mat P ((H + P - 1) / P) H W) fun _ _ _ _ => 0 },
          ?_, rfl, rfl, ?_⟩
  · unfold create_patches
    rw [hshape]
    simp only [patch_dims_fst_toNat H W P hP, patch_dims_snd_toNat H W P hP, if_true]
  · intro y x i j ch hy hx
    dsimp only
    have hmem : (y, x) ∈ grid_cells ((H + P - 1) / P) ((W + P - 1) / P) :=
      (mem_grid_cells _ _ y x).mpr ⟨hy, hx⟩
    have hu : ∀ yx ∈ grid_cells ((H + P - 1) / P) ((W + P - 1) / P),
        tiler_patch_id ((H + P - 1) / P) yx.1 yx.2 =
          tiler_patch_id ((H + P - 1) / P) y x → yx = (y, x) := by
      intro yx hyx he
      have hyx2 := (mem_grid_cells _ _ yx.1 yx.2).mp hyx
      have := tiler_patch_id_inj _ yx.1 yx.2 y x hyx2.1 hy he
      exact Prod.ext this.1 this.2
    rw [foldl_tile_write_mem mat P ((H + P - 1) / P) H W _ y x hmem hu i j ch]

/-! ### Characterization of the assembly loop -/

/-- A cell lies in the block of iteration `i` exactly when its patch-
local offsets are valid; the block of `i` always contains the cell at
its own offsets. -/
lemma inBlock_self (P rows i a b : ℕ) (ha : a < P) (hb : b < P) :
    inBlock P rows i ((i % rows) * P + a) ((i / rows) * P + b) := by
  simp only [inBlock, assembler_cell]
  omega

/-- Two valid linear indices whose blocks share a cell are equal. -/
lemma inBlock_unique (P rows cols i j r c : ℕ)
    (hi : i < rows * cols) (hj : j < rows * cols)
    (h1 : inBlock P rows i r c) (h2 : inBlock P rows j r c) : i = j := by
  unfold inBlock assembler_cell at h1 h2
  have hP : 0 < P := by
    rcases Nat.eq_zero_or_pos P with h | h
    · subst h; omega
    · exact h
  have e1 : r / P = i % rows :=
    Nat.div_eq_of_lt_le h1.1 (by rw [Nat.succ_mul]; exact h1.2.1)
  have e2 : c / P = i / rows :=
    Nat.div_eq_of_lt_le h1.2.2.1 (by rw [Nat.succ_mul]; exact h1.2.2.2)
  have e3 : r / P = j % rows :=
    Nat.div_eq_of_lt_le h2.1 (by rw [Nat.succ_mul]; exact h2.2.1)
  have e4 : c / P = j / rows :=
    Nat.div_eq_of_lt_le h2.2.2.1 (by rw [Nat.succ_mul]; exact h2.2.2.2)
  have hmod : i % rows = j % rows := by rw [← e1, e3]
  have hdiv : i / rows = j / rows := by rw [← e2, e4]
  rw [← Nat.div_add_mod i rows, ← Nat.div_add_mod j rows, hmod, hdiv]

/-- A write of a valid linear index succeeds and yields the expected
updated buffer. -/
lemma assemble_write_ok_of_lt (pred : PredPatches) (P rows cols i : ℕ)
    (hi : i < rows * cols) (acc : ℕ → ℕ → ℕ) :
    assemble_write pred P rows cols acc i = .ok fun r c =>
      if inBlock P rows i r c then
        toUInt8 (pred.data i (r - (assembler_cell rows i).1 * P)
          (c - (assembler_cell rows i).2 * P))
      else acc r c := by
  have hcell := cell_lt rows cols i hi
  unfold assemble_write
  rw [if_pos]
  constructor
  · calc (assembler_cell rows i).1 * P + P = ((i % rows) + 1) * P := by
          unfold assembler_cell; ring
      _ ≤ rows * P := Nat.mul_le_mul_right P hcell.1
      _ = P * rows := Nat.mul_comm _ _
  · calc (assembler_cell rows i).2 * P + P = ((i / rows) + 1) * P := by
          unfold assembler_cell; ring
      _ ≤ cols * P := Nat.mul_le_mul_right P hcell.2
      _ = P * cols := Nat.mul_comm _ _

/-- Reading a successful write: inside the block the cast patch value,
outside the previous buffer value. -/
lemma assemble_write_ok_apply (pred : PredPatches) (P rows cols : ℕ)
    (acc : ℕ → ℕ → ℕ) (i : ℕ) (g : ℕ → ℕ → ℕ)
    (hw : assemble_write pred P rows cols acc i = .ok g) (r c : ℕ) :
    g r c = if inBlock P rows i r c then
        toUInt8 (pred.data i (r - (assembler_cell rows i).1 * P)
          (c - (assembler_cell rows i).2 * P))
      else acc r c := by
  simp only [assemble_write] at hw
  split at hw
  · cases hw
    rfl
  · cases hw

/-- The assembly loop over in-range indices never fails. -/
lemma assemble_loop_total (pred : PredPatches) (P rows cols : ℕ)
    (L : List ℕ) (hL : ∀ i ∈ L, i < rows * cols) :
    ∀ acc, ∃ f, assemble_loop pred P rows cols acc L = .ok f := by
  induction L with
  | nil => intro acc; exact ⟨acc, rfl⟩
  | cons a t ih =>
    intro acc
    obtain ⟨f, hf⟩ := ih (fun i hi => hL i (List.mem_cons_of_mem a hi)) _
    refine ⟨f, ?_⟩
    unfold assemble_loop
    rw [assemble_write_ok_of_lt pred P rows cols a (hL a (List.mem_cons_self a t)) acc]
    exact hf

/-- Cells touched by no iteration of the loop keep their value. -/
lemma assemble_loop_frame (pred : PredPatches) (P rows cols : ℕ) (L : List ℕ) :
    ∀ acc f, assemble_loop pred P rows cols acc L = .ok f →
      ∀ r c, (∀ i ∈ L, ¬ inBlock P rows i r c) → f r c = acc r c := by
  induction L with
  | nil =>
    intro acc f hok r c _
    cases hok
    rfl
  | cons a t ih =>
    intro acc f hok r c hnot
    unfold assemble_loop at hok
    cases hw : assemble_write pred P rows cols acc a with
    | error e => rw [hw] at hok; cases hok
    | ok acc2 =>
      rw [hw] at hok
      rw [ih acc2 f hok r c (fun i hi => hnot i (List.mem_cons_of_mem a hi))]
      rw [assemble_write_ok_apply pred P rows cols acc a acc2 hw r c,
        if_neg (hnot a (List.mem_cons_self a t))]

/-- The block of every index processed by the loop holds that patch,
cast to uint8, at the end of the loop. -/
lemma assemble_loop_block (pred : PredPatches) (P rows cols : ℕ) (hP : 0 < P)
    (L : List ℕ) (hL : ∀ i ∈ L, i < rows * cols) :
    ∀ acc f, assemble_loop pred P rows cols acc L = .ok f →
      ∀ i0 ∈ L, ∀ a b, a < P → b < P →
        f ((i0 % rows) * P + a) ((i0 / rows) * P + b) = toUInt8 (pred.data i0 a b) := by
  induction L with
  | nil =>
    intro acc f _ i0 hi0
    cases hi0
  | cons x t ih =>
    intro acc f hok i0 hmem a b ha hb
    unfold assemble_loop at hok
    cases hw : assemble_write pred P rows cols acc x with
    | error e => rw [hw] at hok; cases hok
    | ok acc2 =>
      rw [hw] at hok
      by_cases hm : i0 ∈ t
      · exact ih (fun i hi => hL i (List.mem_cons_of_mem x hi)) acc2 f hok i0 hm a b ha hb
      · have he : i0 = x := by
          rcases List.mem_cons.mp hmem with h1 | h1
          · exact h1
          · exact absurd h1 hm
        subst he
        have hself := inBlock_self P rows i0 a b ha hb
        have hfr := assemble_loop_frame pred P rows cols t acc2 f hok
          ((i0 % rows) * P + a) ((i0 / rows) * P + b)
          (fun j hj hblk => hm
            ((inBlock_unique P rows cols j i0 _ _ (hL j (List.mem_cons_of_mem i0 hj))
              (hL i0 (List.mem_cons_self i0 t)) hblk hself) ▸ hj))
        rw [hfr, assemble_write_ok_apply pred P rows cols acc i0 acc2 hw _ _, if_pos hself]
        unfold assembler_cell
        rw [Nat.add_sub_cancel_left, Nat.add_sub_cancel_left]

/-- Full characterization of `assemble_patches` when the number of
patches does not exceed the grid size: it succeeds, the output has
shape `(P*rows, P*cols)`, each supplied patch occupies its block cast
to uint8, and untouched cells are zero. -/
lemma assemble_patches_spec (pred : PredPatches) (H W P : ℕ) (hP : 0 < P)
    (hcount : pred.count ≤ ((H + P - 1) / P) * ((W + P - 1) / P)) :
    ∃ A : AssembledMat,
      assemble_patches pred ((H : Int), (W : Int)) P = .ok A ∧
      A.height = P * ((H + P - 1) / P) ∧ A.width = P * ((W + P - 1) / P) ∧
      (∀ i, i < pred.count → ∀ a b, a < P → b < P →
        A.data ((i % ((H + P - 1) / P)) * P + a) ((i / ((H + P - 1) / P)) * P + b) =
          toUInt8 (pred.data i a b)) ∧
      (∀ r c, (∀ i, i < pred.count → ¬ inBlock P ((H + P - 1) / P) i r c) →
        A.data r c = 0) := by
  have hin : ∀ i ∈ List.range pred.count,
      i < ((H + P - 1) / P) * ((W + P - 1) / P) :=
    fun i hi => lt_of_lt_of_le (List.mem_range.mp hi) hcount
  obtain ⟨f, hf⟩ := assemble_loop_total pred P ((H + P - 1) / P) ((W + P - 1) / P)
    (List.range pred.count) hin (fun _ _ => 0)
  refine ⟨⟨P * ((H + P - 1) / P), P * ((W + P - 1) / P), f⟩, ?_, rfl, rfl, ?_, ?_⟩
  · unfold assemble_patches
    rw [patch_dims_fst_toNat H W P hP, patch_dims_snd_toNat H W P hP]
    dsimp only
    rw [hf]
    rfl
  · intro i hi a b ha hb
    exact assemble_loop_block pred P _ _ hP _ hin _ f hf i (List.mem_range.mpr hi) a b ha hb
  · intro r c hno
    exact assemble_loop_frame pred P _ _ _ _ f hf r c
      (fun i hi => hno i (List.mem_range.mp hi))

/-- Every uint8 cell value is below 256. -/
lemma toUInt8_lt (v : Int) : toUInt8 v < 256 := by
  unfold toUInt8
  omega

/-! ### Claims -/

/-- C1: for every source array of shape (H, W, 4) with H, W > 0 and
every patch size P > 0, `create_patches` returns a sequence of exactly
rows*cols patches (rows = ceil(H/P) = (H+P-1)/P, cols = ceil(W/P) =
(W+P-1)/P), each of shape (P, P, 4), such that the patch at linear
index row + col*rows holds the source sub-region
[row*P : row*P+P, col*P : col*P+P, :] in its top-left corner and every
cell outside that valid region is zero — interior patches are full
copies and bottom/right border patches are zero-padded. -/
theorem C1_create_patches_tiling (mat : NDArray) (H W P : ℕ)
    (hshape : mat.shape = [H, W, 4]) (hH : 0 < H) (hW : 0 < W) (hP : 0 < P) :
    ∃ pat : Patches, create_patches mat P = .ok pat ∧
      pat.count = ((H + P - 1) / P) * ((W + P - 1) / P) ∧
      pat.psize = P ∧
      ∀ row col, row < (H + P - 1) / P → col < (W + P - 1) / P →
        ∀ i j ch, i < P → j < P → ch < 4 →
          pat.data (row + col * ((H + P - 1) / P)) i j ch =
            if row * P + i < H ∧ col * P + j < W then
              mat.data [row * P + i, col * P + j, ch]
            else 0 := by
  obtain ⟨pat, hok, hcount, hpsize, hdata⟩ := create_patches_spec mat H W P hshape hP
  refine ⟨pat, hok, hcount, hpsize, ?_⟩
  intro row col hrow hcol i j ch hiP hjP hch
  have hpid : row + col * ((H + P - 1) / P) = tiler_patch_id ((H + P - 1) / P) row col := rfl
  rw [hpid, hdata row col i j ch hrow hcol]
  have hiff : (i < min P (H - row * P) ∧ j < min P (W - col * P) ∧ ch < 4) ↔
      (row * P + i < H ∧ col * P + j < W) := by omega
  simp only [hiff]

/-- Witness for C1 at a concrete input: a 1x1x4 source with constant
value 5 and patch size 1. -/
theorem C1_witness :
    ∃ pat : Patches, create_patches ⟨[1, 1, 4], fun _ => 5⟩ 1 = .ok pat ∧
      pat.count = ((1 + 1 - 1) / 1) * ((1 + 1 - 1) / 1) ∧
      pat.psize = 1 ∧
      ∀ row col, row < (1 + 1 - 1) / 1 → col < (1 + 1 - 1) / 1 →
        ∀ i j ch, i < 1 → j < 1 → ch < 4 →
          pat.data (row + col * ((1 + 1 - 1) / 1)) i j ch =
            if row * 1 + i < 1 ∧ col * 1 + j < 1 then
              NDArray.data ⟨[1, 1, 4], fun _ => 5⟩ [row * 1 + i, col * 1 + j, ch]
            else 0 :=
  C1_create_patches_tiling ⟨[1, 1, 4], fun _ => 5⟩ 1 1 1 rfl
    (by decide) (by decide) (by decide)

/-- C2: for every extent (H, W), patch size P > 0 with grid
(rows, cols) = ((H+P-1)/P, (W+P-1)/P), and every sequence of exactly
rows*cols patches, `assemble_patches` succeeds with a 2D output of
shape (P*rows, P*cols) whose elements are 8-bit (below 256) and in
which the block at [(i mod rows)*P .., (i div rows)*P ..] equals
patch i cast to uint8, for every linear index i. -/
theorem C2_assemble_patches_exact (pred : PredPatches) (H W P : ℕ) (hP : 0 < P)
    (hcount : pred.count = ((H + P - 1) / P) * ((W + P - 1) / P)) :
    ∃ A : AssembledMat,
      assemble_patches pred ((H : Int), (W : Int)) P = .ok A ∧
      A.height = P * ((H + P - 1) / P) ∧
      A.width = P * ((W + P - 1) / P) ∧
      (∀ r c, r < A.height → c < A.width → A.data r c < 256) ∧
      (∀ i, i < ((H + P - 1) / P) * ((W + P - 1) / P) →
        ∀ a b, a < P → b < P →
          A.data ((i % ((H + P - 1) / P)) * P + a) ((i / ((H + P - 1) / P)) * P + b) =
            toUInt8 (pred.data i a b)) := by
  obtain ⟨A, hok, hh, hw2, hblock, hzero⟩ :=
    assemble_patches_spec pred H W P hP (le_of_eq hcount)
  refine ⟨A, hok, hh, hw2, ?_, fun i hi => hblock i (by omega)⟩
  intro r c hr hc
  rw [hh] at hr
  rw [hw2] at hc
  have hrP : r / P < (H + P - 1) / P :=
    (Nat.div_lt_iff_lt_mul hP).mpr (by rwa [Nat.mul_comm])
  have hcP : c / P < (W + P - 1) / P :=
    (Nat.div_lt_iff_lt_mul hP).mpr (by rwa [Nat.mul_comm])
  have hi0 : tiler_patch_id ((H + P - 1) / P) (r / P) (c / P) <
      ((H + P - 1) / P) * ((W + P - 1) / P) :=
    tiler_patch_id_lt _ _ _ _ hrP hcP
  have hdecomp := pid_mod_div ((H + P - 1) / P) (r / P) (c / P) hrP
  have hr2 : r = ((tiler_patch_id ((H + P - 1) / P) (r / P) (c / P)) %
      ((H + P - 1) / P)) * P + r % P := by
    rw [show (tiler_patch_id ((H + P - 1) / P) (r / P) (c / P)) %
        ((H + P - 1) / P) = r / P from hdecomp.1, Nat.mul_comm]
    exact (Nat.div_add_mod r P).symm
  have hc2 : c = ((tiler_patch_id ((H + P - 1) / P) (r / P) (c / P)) /
      ((H + P - 1) / P)) * P + c % P := by
    rw [show (tiler_patch_id ((H + P - 1) / P) (r / P) (c / P)) /
        ((H + P - 1) / P) = c / P from hdecomp.2, Nat.mul_comm]
    exact (Nat.div_add_mod c P).symm
  have hval := hblock (tiler_patch_id ((H + P - 1) / P) (r / P) (c / P)) (by omega)
    (r % P) (c % P) (Nat.mod_lt _ hP) (Nat.mod_lt _ hP)
  rw [← hr2, ← hc2] at hval
  rw [hval]
  exact toUInt8_lt _

/-- Witness for C2 at a concrete input: one constant patch, extent
(1, 1), patch size 1. -/
theorem C2_witness :
    ∃ A : AssembledMat,
      assemble_patches ⟨1, fun _ _ _ => 7⟩ (((1 : ℕ) : Int), ((1 : ℕ) : Int)) 1 = .ok A ∧
      A.height = 1 * ((1 + 1 - 1) / 1) ∧
      A.width = 1 * ((1 + 1 - 1) / 1) ∧
      (∀ r c, r < A.height → c < A.width → A.data r c < 256) ∧
      (∀ i, i < ((1 + 1 - 1) / 1) * ((1 + 1 - 1) / 1) →
        ∀ a b, a < 1 → b < 1 →
          A.data ((i % ((1 + 1 - 1) / 1)) * 1 + a) ((i / ((1 + 1 - 1) / 1)) * 1 + b) =
            toUInt8 (PredPatches.data ⟨1, fun _ _ _ => 7⟩ i a b)) :=
  C2_assemble_patches_exact ⟨1, fun _ _ _ => 7⟩ 1 1 1 (by decide) (by decide)

/-- C10 (implicit): when fewer than rows*cols patches are supplied,
`assemble_patches` returns without error an output of shape
(P*rows, P*cols) in which the blocks of the supplied indices hold the
corresponding patches and every block of a linear index at or beyond
the count stays entirely zero. -/
theorem C10_assemble_patches_undercount (pred : PredPatches) (H W P : ℕ) (hP : 0 < P)
    (hlt : pred.count < ((H + P - 1) / P) * ((W + P - 1) / P)) :
    ∃ A : AssembledMat,
      assemble_patches pred ((H : Int), (W : Int)) P = .ok A ∧
      A.height = P * ((H + P - 1) / P) ∧
      A.width = P * ((W + P - 1) / P) ∧
      (∀ i, i < pred.count → ∀ a b, a < P → b < P →
        A.data ((i % ((H + P - 1) / P)) * P + a) ((i / ((H + P - 1) / P)) * P + b) =
          toUInt8 (pred.data i a b)) ∧
      (∀ i, pred.count ≤ i → i < ((H + P - 1) / P) * ((W + P - 1) / P) →
        ∀ a b, a < P → b < P →
          A.data ((i % ((H + P - 1) / P)) * P + a) ((i / ((H + P - 1) / P)) * P + b) = 0) := by
  obtain ⟨A, hok, hh, hw2, hblock, hzero⟩ :=
    assemble_patches_spec pred H W P hP (le_of_lt hlt)
  refine ⟨A, hok, hh, hw2, hblock, ?_⟩
  intro i hge hi a b ha hb
  apply hzero
  intro j hj hblk
  have hself := inBlock_self P ((H + P - 1) / P) i a b ha hb
  have := inBlock_unique P ((H + P - 1) / P) ((W + P - 1) / P) j i _ _
    (by omega) hi hblk hself
  omega

/-- Witness for C10 at a concrete input: a single patch for a 2x2 grid
(extent (4, 4), patch size 2). -/
theorem C10_witness :
    ∃ A : AssembledMat,
      assemble_patches ⟨1, fun _ _ _ => 9⟩ (((4 : ℕ) : Int), ((4 : ℕ) : Int)) 2 = .ok A ∧
      A.height = 2 * ((4 + 2 - 1) / 2) ∧
      A.width = 2 * ((4 + 2 - 1) / 2) ∧
      (∀ i, i < 1 → ∀ a b, a < 2 → b < 2 →
        A.data ((i % ((4 + 2 - 1) / 2)) * 2 + a) ((i / ((4 + 2 - 1) / 2)) * 2 + b) =
          toUInt8 (PredPatches.data ⟨1, fun _ _ _ => 9⟩ i a b)) ∧
      (∀ i, 1 ≤ i → i < ((4 + 2 - 1) / 2) * ((4 + 2 - 1) / 2) →
        ∀ a b, a < 2 → b < 2 →
          A.data ((i % ((4 + 2 - 1) / 2)) * 2 + a) ((i / ((4 + 2 - 1) / 2)) * 2 + b) = 0) :=
  C10_assemble_patches_undercount ⟨1, fun _ _ _ => 9⟩ 4 4 2 (by decide) (by decide)

/-- C3 counterexample: the claim as stated fails because the assembled
output is uint8 — a 1x1x4 source with value 300, tiled with P = 1 and
reassembled identity-mapped over channel 0, yields 44 (= 300 mod 256),
not the original 300. -/
theorem C3_counterexample :
    (create_patches ⟨[1, 1, 4], fun _ => 300⟩ 1).bind
        (fun pat => (assemble_patches ⟨pat.count, fun i a b => pat.data i a b 0⟩
          (((1 : ℕ) : Int), ((1 : ℕ) : Int)) 1).map fun A => A.data 0 0) =
      Except.ok 44 ∧
    NDArray.data ⟨[1, 1, 4], fun _ => 300⟩ [0, 0, 0] = 300 := by
  constructor
  · obtain ⟨pat, hok, hcount, hpsize, hdata⟩ :=
      create_patches_spec ⟨[1, 1, 4], fun _ => 300⟩ 1 1 1 rfl (by decide)
    rw [hok]
    show (assemble_patches ⟨pat.count, fun i a b => pat.data i a b 0⟩
      (((1 : ℕ) : Int), ((1 : ℕ) : Int)) 1).map (fun A => A.data 0 0) = Except.ok 44
    obtain ⟨A, hok2, hh, hw2, hblock, hzero⟩ :=
      assemble_patches_spec ⟨pat.count, fun i a b => pat.data i a b 0⟩ 1 1 1
        (by decide) (le_of_eq hcount)
    rw [hok2]
    show Except.ok (A.data 0 0) = Except.ok 44
    have h1 : pat.data 0 0 0 0 = 300 := by
      have hd := hdata 0 0 0 0 0 (by decide) (by decide)
      rw [show tiler_patch_id ((1 + 1 - 1) / 1) 0 0 = 0 from rfl] at hd
      rw [hd, if_pos (by decide)]
    have h2 : A.data 0 0 = toUInt8 (pat.data 0 0 0 0) :=
      hblock 0 (by rw [show (⟨pat.count, fun i a b => pat.data i a b 0⟩ :
        PredPatches).count = pat.count from rfl, hcount]; decide) 0 0 (by decide) (by decide)
    rw [h2, h1]
    rfl
  · rfl

/-- C3 (amended): the round-trip holds for sources whose stored values
are integers representable in the 8-bit output type — for every source
of shape (H, W, 4) with H and W exact multiples of P > 0 and every
channel ch < 4, tiling with `create_patches` and reassembling the
identity-mapped channel-ch planes with `assemble_patches` at the same
extent (H, W) and the same P reproduces the original values over the
covered H x W extent. -/
theorem C3_roundtrip (mat : NDArray) (H W P ch : ℕ)
    (hshape : mat.shape = [H, W, 4]) (hP : 0 < P)
    (hH : P ∣ H) (hW : P ∣ W) (hch : ch < 4)
    (hval : ∀ r s, r < H → s < W →
      0 ≤ mat.data [r, s, ch] ∧ mat.data [r, s, ch] < 256) :
    ∃ pat A, create_patches mat P = .ok pat ∧
      assemble_patches ⟨pat.count, fun i a b => pat.data i a b ch⟩
        ((H : Int), (W : Int)) P = .ok A ∧
      ∀ r s, r < H → s < W → (A.data r s : Int) = mat.data [r, s, ch] := by
  obtain ⟨pat, hok, hcount, hpsize, hdata⟩ := create_patches_spec mat H W P hshape hP
  obtain ⟨A, hok2, hh, hw2, hblock, hzero⟩ :=
    assemble_patches_spec ⟨pat.count, fun i a b => pat.data i a b ch⟩ H W P hP
      (le_of_eq hcount)
  refine ⟨pat, A, hok, hok2, ?_⟩
  intro r s hr hs
  have hrP : r / P < (H + P - 1) / P := by
    rw [ceilDiv_of_dvd H P hP hH]
    exact Nat.div_lt_div_of_lt_of_dvd hH hr
  have hsP : s / P < (W + P - 1) / P := by
    rw [ceilDiv_of_dvd W P hP hW]
    exact Nat.div_lt_div_of_lt_of_dvd hW hs
  have hi0 : tiler_patch_id ((H + P - 1) / P) (r / P) (s / P) <
      ((H + P - 1) / P) * ((W + P - 1) / P) :=
    tiler_patch_id_lt _ _ _ _ hrP hsP
  have hdecomp := pid_mod_div ((H + P - 1) / P) (r / P) (s / P) hrP
  have hrdm : (r / P) * P + r % P = r := by
    rw [Nat.mul_comm]
    exact Nat.div_add_mod r P
  have hsdm : (s / P) * P + s % P = s := by
    rw [Nat.mul_comm]
    exact Nat.div_add_mod s P
  have hr2 : r = ((tiler_patch_id ((H + P - 1) / P) (r / P) (s / P)) %
      ((H + P - 1) / P)) * P + r % P := by
    rw [show (tiler_patch_id ((H + P - 1) / P) (r / P) (s / P)) %
        ((H + P - 1) / P) = r / P from hdecomp.1]
    exact hrdm.symm
  have hs2 : s = ((tiler_patch_id ((H + P - 1) / P) (r / P) (s / P)) /
      ((H + P - 1) / P)) * P + s % P := by
    rw [show (tiler_patch_id ((H + P - 1) / P) (r / P) (s / P)) /
        ((H + P - 1) / P) = s / P from hdecomp.2]
    exact hsdm.symm
  have hval2 := hblock (tiler_patch_id ((H + P - 1) / P) (r / P) (s / P))
    (by dsimp only; omega) (r % P) (s % P) (Nat.mod_lt _ hP) (Nat.mod_lt _ hP)
  rw [← hr2, ← hs2] at hval2
  have hmr : r % P < P := Nat.mod_lt _ hP
  have hms : s % P < P := Nat.mod_lt _ hP
  have hpatval : pat.data (tiler_patch_id ((H + P - 1) / P) (r / P) (s / P))
      (r % P) (s % P) ch = mat.data [r, s, ch] := by
    rw [hdata (r / P) (s / P) (r % P) (s % P) ch hrP hsP, if_pos]
    · rw [hrdm, hsdm]
    · refine ⟨by omega, by omega, hch⟩
  have hval3 : A.data r s = toUInt8 (mat.data [r, s, ch]) := by
    rw [hval2]
    rw [show (⟨pat.count, fun i a b => pat.data i a b ch⟩ : PredPatches).data
      (tiler_patch_id ((H + P - 1) / P) (r / P) (s / P)) (r % P) (s % P) =
        pat.data (tiler_patch_id ((H + P - 1) / P) (r / P) (s / P))
          (r % P) (s % P) ch from rfl]
    rw [hpatval]
  rw [hval3]
  have hv := hval r s hr hs
  unfold toUInt8
  omega

/-- Witness for C3 (amended) at a concrete input: a 1x1x4 source with
value 200, patch size 1, channel 0. -/
theorem C3_witness :
    ∃ pat A, create_patches ⟨[1, 1, 4], fun _ => 200⟩ 1 = .ok pat ∧
      assemble_patches ⟨pat.count, fun i a b => pat.data i a b 0⟩
        (((1 : ℕ) : Int), ((1 : ℕ) : Int)) 1 = .ok A ∧
      ∀ r s, r < 1 → s < 1 →
        (A.data r s : Int) = NDArray.data ⟨[1, 1, 4], fun _ => 200⟩ [r, s, 0] :=
  C3_roundtrip ⟨[1, 1, 4], fun _ => 200⟩ 1 1 1 0 rfl (by decide)
    (by decide) (by decide) (by decide)
    (fun r s _ _ => ⟨by show (0 : Int) ≤ 200; norm_num, by show (200 : Int) < 256; norm_num⟩)

/-- C4: for every extent and patch size P > 0 with grid (rows, cols)
derived via `patch_dims`, the tiler index mapping
`patch_id = row + col*rows` and the assembler index mapping
`i -> (i mod rows, i div rows)` agree: the grid cell whose source
region the tiler stored at linear index i is exactly the cell into
which the assembler writes patch i, for all valid i. -/
theorem C4_index_mapping_agreement (H W P : ℕ) (hP : 0 < P) (rows cols : ℕ)
    (hrows : rows = ((patch_dims ((H : Int), (W : Int)) (P : Int)).1).toNat)
    (hcols : cols = ((patch_dims ((H : Int), (W : Int)) (P : Int)).2).toNat) :
    (∀ row col, row < rows → col < cols →
      tiler_patch_id rows row col < rows * cols ∧
      assembler_cell rows (tiler_patch_id rows row col) = (row, col)) ∧
    (∀ i, i < rows * cols →
      tiler_patch_id rows (assembler_cell rows i).1 (assembler_cell rows i).2 = i) := by
  constructor
  · intro row col hrow hcol
    refine ⟨tiler_patch_id_lt rows cols row col hrow hcol, ?_⟩
    have hd := pid_mod_div rows row col hrow
    show ((row + col * rows) % rows, (row + col * rows) / rows) = (row, col)
    rw [hd.1, hd.2]
  · intro i _
    exact pid_recompose rows i

/-- Witness for C4 at a concrete input: extent (6, 6), patch size 4,
grid (2, 2). -/
theorem C4_witness :
    (∀ row col, row < 2 → col < 2 →
      tiler_patch_id 2 row col < 2 * 2 ∧
      assembler_cell 2 (tiler_patch_id 2 row col) = (row, col)) ∧
    (∀ i, i < 2 * 2 →
      tiler_patch_id 2 (assembler_cell 2 i).1 (assembler_cell 2 i).2 = i) :=
  C4_index_mapping_agreement 6 6 4 (by decide) 2 2
    (by rw [patch_dims_fst_toNat 6 6 4 (by decide)])
    (by rw [patch_dims_snd_toNat 6 6 4 (by decide)])

/-- C5 counterexample: `assemble_patches` performs no size check — with
an empty patch sequence and extent (4, 4), patch size 4 (grid 1x1, so
the count 0 differs from rows*cols = 1), it returns an ordinary result
instead of failing with a size-mismatch error. -/
theorem C5_counterexample :
    (assemble_patches ⟨0, fun _ _ _ => 0⟩ (((4 : ℕ) : Int), ((4 : ℕ) : Int)) 4).toOption.isSome
      = true ∧
    (0 : ℕ) ≠ ((4 + 4 - 1) / 4) * ((4 + 4 - 1) / 4) := by
  constructor
  · obtain ⟨A, hok, _⟩ :=
      assemble_patches_spec ⟨0, fun _ _ _ => 0⟩ 4 4 4 (by decide) (by decide)
    rw [hok]
    rfl
  · decide

/-- C5 (amended): `assemble_patches` does not validate the patch
count — when the sequence is shorter than rows*cols it raises no
size-mismatch error and returns the (P*rows, P*cols) output with the
missing blocks left zero (see C10 for the full content description). -/
theorem C5_no_size_check (pred : PredPatches) (H W P : ℕ) (hP : 0 < P)
    (hlt : pred.count < ((H + P - 1) / P) * ((W + P - 1) / P)) :
    ∃ A : AssembledMat,
      assemble_patches pred ((H : Int), (W : Int)) P = .ok A ∧
      A.height = P * ((H + P - 1) / P) ∧
      A.width = P * ((W + P - 1) / P) := by
  obtain ⟨A, hok, hh, hw2, _, _⟩ := assemble_patches_spec pred H W P hP (le_of_lt hlt)
  exact ⟨A, hok, hh, hw2⟩

/-- Witness for C5 (amended) at a concrete input: empty sequence,
extent (4, 4), patch size 4. -/
theorem C5_witness :
    ∃ A : AssembledMat,
      assemble_patches ⟨0, fun _ _ _ => 0⟩ (((4 : ℕ) : Int), ((4 : ℕ) : Int)) 4 = .ok A ∧
      A.height = 4 * ((4 + 4 - 1) / 4) ∧
      A.width = 4 * ((4 + 4 - 1) / 4) :=
  C5_no_size_check ⟨0, fun _ _ _ => 0⟩ 4 4 4 (by decide) (by decide)

/-- C6 counterexample: `patch_dims` performs no validation of the
patch size — at extent (10, 10) and patch size -1 it returns the grid
pair (-10, -10) instead of signaling an invalid-argument error. -/
theorem C6_counterexample :
    patch_dims ((10 : Int), (10 : Int)) (-1) = (-10, -10) := by
  unfold patch_dims
  rw [Prod.mk.injEq]
  constructor
  · rw [show (((10 : Int), (10 : Int)).1 : ℚ) / ((-1 : Int) : ℚ) = ((-10 : Int) : ℚ) by
      push_cast; norm_num]
    rw [Int.ceil_intCast]
  · rw [show (((10 : Int), (10 : Int)).2 : ℚ) / ((-1 : Int) : ℚ) = ((-10 : Int) : ℚ) by
      push_cast; norm_num]
    rw [Int.ceil_intCast]

/-- C6 (amended): `patch_dims` is a pure total function that performs
no validation: it never signals an invalid-argument error; for every
positive patch size it returns the ceiling grid dimensions (see C8),
while for every negative patch size it silently returns a non-positive
grid pair instead of failing. -/
theorem C6_no_validation (h w : ℕ) (p : Int) (hp : p < 0) :
    (patch_dims ((h : Int), (w : Int)) p).1 ≤ 0 ∧
    (patch_dims ((h : Int), (w : Int)) p).2 ≤ 0 := by
  unfold patch_dims
  have hp0 : ((p : ℚ)) ≤ 0 := by exact_mod_cast le_of_lt hp
  constructor
  · refine Int.ceil_le.mpr ?_
    rw [Int.cast_zero]
    exact div_nonpos_iff.mpr (Or.inl ⟨by positivity, hp0⟩)
  · refine Int.ceil_le.mpr ?_
    rw [Int.cast_zero]
    exact div_nonpos_iff.mpr (Or.inl ⟨by positivity, hp0⟩)

/-- Witness for C6 (amended) at a concrete input: extent (10, 10),
patch size -1. -/
theorem C6_witness :
    (patch_dims (((10 : ℕ) : Int), ((10 : ℕ) : Int)) (-1)).1 ≤ 0 ∧
    (patch_dims (((10 : ℕ) : Int), ((10 : ℕ) : Int)) (-1)).2 ≤ 0 :=
  C6_no_validation 10 10 (-1) (by decide)

/-- C7: `create_patches` fails with the shape-mismatch error exactly
when the input is not a 3-dimensional array whose last dimension is 4
(so in particular an (H, W, 3) input fails rather than being silently
truncated), and this check precedes all tiling work. -/
theorem C7_shape_check (mat : NDArray) (P : ℕ) :
    create_patches mat P = .error shapeErrMsg ↔ ¬ ∃ h w, mat.shape = [h, w, 4] := by
  constructor
  · intro herr
    rintro ⟨h, w, hs⟩
    unfold create_patches at herr
    rw [hs] at herr
    simp at herr
  · intro hno
    unfold create_patches
    cases hs1 : mat.shape with
    | nil => rfl
    | cons a l1 =>
      cases l1 with
      | nil => rfl
      | cons b l2 =>
        cases l2 with
        | nil => rfl
        | cons c l3 =>
          cases l3 with
          | nil =>
            by_cases hc : c = 4
            · exact absurd ⟨a, b, by rw [hs1, hc]⟩ hno
            · dsimp only
              rw [if_neg hc]
          | cons d l4 => rfl

/-- C8: for every extent (h, w) of naturals and positive patch size P,
`patch_dims` returns exactly the per-axis ceiling pair: it equals the
natural ceiling-division pair ((h+P-1)/P, (w+P-1)/P), and each
component d satisfies the characterizing inequalities of the ceiling,
extent ≤ d*P and (d-1)*P < extent, computed independently per axis. -/
theorem C8_patch_dims_ceiling (h w P : ℕ) (hP : 0 < P) :
    patch_dims ((h : Int), (w : Int)) (P : Int) =
      ((((h + P - 1) / P : ℕ) : Int), (((w + P - 1) / P : ℕ) : Int)) ∧
    (h : Int) ≤ (patch_dims ((h : Int), (w : Int)) (P : Int)).1 * (P : Int) ∧
    ((patch_dims ((h : Int), (w : Int)) (P : Int)).1 - 1) * (P : Int) < (h : Int) ∧
    (w : Int) ≤ (patch_dims ((h : Int), (w : Int)) (P : Int)).2 * (P : Int) ∧
    ((patch_dims ((h : Int), (w : Int)) (P : Int)).2 - 1) * (P : Int) < (w : Int) := by
  have he := patch_dims_nat h w P hP
  have hb1 := ceilDiv_bounds h P hP
  have hb2 := ceilDiv_bounds w P hP
  have hq1 : (h : Int) ≤ (P : Int) * (((h + P - 1) / P : ℕ) : Int) := by exact_mod_cast hb1.1
  have hq2 : (P : Int) * (((h + P - 1) / P : ℕ) : Int) < (h : Int) + P := by
    exact_mod_cast hb1.2
  have hq3 : (w : Int) ≤ (P : Int) * (((w + P - 1) / P : ℕ) : Int) := by exact_mod_cast hb2.1
  have hq4 : (P : Int) * (((w + P - 1) / P : ℕ) : Int) < (w : Int) + P := by
    exact_mod_cast hb2.2
  refine ⟨he, ?_, ?_, ?_, ?_⟩ <;> rw [he] <;> dsimp only <;> nlinarith [hq1, hq2, hq3, hq4]

/-- Witness for C8 at a concrete input: extent (10, 10), patch size 4,
grid (3, 3). -/
theorem C8_witness :
    patch_dims (((10 : ℕ) : Int), ((10 : ℕ) : Int)) ((4 : ℕ) : Int) =
      ((((10 + 4 - 1) / 4 : ℕ) : Int), (((10 + 4 - 1) / 4 : ℕ) : Int)) ∧
    ((10 : ℕ) : Int) ≤ (patch_dims (((10 : ℕ) : Int), ((10 : ℕ) : Int)) ((4 : ℕ) : Int)).1
      * ((4 : ℕ) : Int) ∧
    ((patch_dims (((10 : ℕ) : Int), ((10 : ℕ) : Int)) ((4 : ℕ) : Int)).1 - 1)
      * ((4 : ℕ) : Int) < ((10 : ℕ) : Int) ∧
    ((10 : ℕ) : Int) ≤ (patch_dims (((10 : ℕ) : Int), ((10 : ℕ) : Int)) ((4 : ℕ) : Int)).2
      * ((4 : ℕ) : Int) ∧
    ((patch_dims (((10 : ℕ) : Int), ((10 : ℕ) : Int)) ((4 : ℕ) : Int)).2 - 1)
      * ((4 : ℕ) : Int) < ((10 : ℕ) : Int) :=
  C8_patch_dims_ceiling 10 10 4 (by decide)

/-- C9: for every extent (h, w) and patch size P > 0, the grid
dimensions returned by `patch_dims` satisfy rows*P >= h and
cols*P >= w — the patch grid always covers the full source extent. -/
theorem C9_grid_covers (h w P : ℕ) (hP : 0 < P) :
    (h : Int) ≤ (patch_dims ((h : Int), (w : Int)) (P : Int)).1 * (P : Int) ∧
    (w : Int) ≤ (patch_dims ((h : Int), (w : Int)) (P : Int)).2 * (P : Int) := by
  have he := patch_dims_nat h w P hP
  have hb1 := ceilDiv_bounds h P hP
  have hb2 := ceilDiv_bounds w P hP
  have hq1 : (h : Int) ≤ (P : Int) * (((h + P - 1) / P : ℕ) : Int) := by exact_mod_cast hb1.1
  have hq3 : (w : Int) ≤ (P : Int) * (((w + P - 1) / P : ℕ) : Int) := by exact_mod_cast hb2.1
  refine ⟨?_, ?_⟩ <;> rw [he] <;> dsimp only <;> nlinarith [hq1, hq3]

/-- Witness for C9 at a concrete input: extent (10, 10), patch size 4. -/
theorem C9_witness :
    ((10 : ℕ) : Int) ≤ (patch_dims (((10 : ℕ) : Int), ((10 : ℕ) : Int)) ((4 : ℕ) : Int)).1
      * ((4 : ℕ) : Int) ∧
    ((10 : ℕ) : Int) ≤ (patch_dims (((10 : ℕ) : Int), ((10 : ℕ) : Int)) ((4 : ℕ) : Int)).2
      * ((4 : ℕ) : Int) :=
  C9_grid_covers 10 10 4 (by decide)

end DIM
